import Mathlib

/-
Verification of the terminal rendering and input engine of `motop`
(`libmotop/console.py`): a shallow embedding of the `ColorStr`, `Console`
and `Block` classes, together with theorems about the cell formatter, the
column-width memory, the height budgeting of `Block.print` and
`Console.refresh`, the timeout accounting of `Console.checkButton`, and the
prompt loop of `Console.askForInput`.

Modelling conventions, stated once:
* Output is modelled as the list of text lines written to stdout, with
  `sys.stdout.isatty()` false, so the ANSI bold/color/reset escapes of
  `Block.__printLine` (which are emitted only when the stream is a tty) and
  the `os.system('clear')` call do not contribute characters.
* Python 2 is the primary interpreter targeted by the module (see its
  `__builtin__` shim), so `value / 1000` on integers is floor division; on
  this toolchain `Int` division by the positive constant `1000` is exactly
  that floor division.
* `'%.0f' % value` on an integer converts the value through a C double
  before printing: magnitudes above 2^53 are rounded to 53 significant
  bits (ties to even), and magnitudes beyond the double range make the
  conversion raise OverflowError rather than print.  The rounding is
  modelled exactly (`roundF64`); the overflow region (|value| on the order
  of 10^308, only reachable for huge negatives, since non-negative values
  are compacted below 10000 before rendering) lies outside the domain of
  every theorem below, which is why the rendering can stay a total
  function.
* The float branch of `Block.__cell` and the wall-clock arithmetic of
  `Console.checkButton` are modelled over `ℚ` (exact arithmetic): each
  `time.sleep(0.1)` advances the clock by exactly `1/10` and all other
  work is instantaneous, which is the idealisation the specification's
  "approximately"/"negligible processing" language refers to.
-/

namespace Motop

/-- AnsiColor mirrors the sixteen SGR color constants of class `ColorStr`
(8 base colors in normal and bright variants). The renderer never inspects
the tag when stdout is not a tty, so no escape text is attached here. -/
inductive AnsiColor
  | black | red | green | yellow | blue | purple | cyan | white
  | brightBlack | brightRed | brightGreen | brightYellow
  | brightBlue | brightPurple | brightCyan | brightWhite
deriving DecidableEq, Repr

/-- Value is the closed variant of cell inputs dispatched by `Block.__cell`:
Python lists, values of `numbers.Integral`, other `numbers.Number` values
(floats, embedded as exact rationals), `ColorStr` instances (text plus an
optional color tag), other stringifiable values (strings), and `None`. -/
inductive Value
  | list (vs : List Value)
  | int (n : ℤ)
  | float (q : ℚ)
  | colorStr (s : String) (c : Option AnsiColor)
  | str (s : String)
  | none

/-- fixesAll is `('',) + Block.fixes`: the empty prefix followed by the
eight magnitude suffixes `'k', 'M', 'G', 'T', 'P', 'E', 'Z', 'Y'`. -/
def fixesAll : List String := ["", "k", "M", "G", "T", "P", "E", "Z", "Y"]

/-- bitLenAux computes the binary length of its second argument by
repeated halving, structurally on a fuel that the caller makes large
enough. -/
def bitLenAux : ℕ → ℕ → ℕ
  | 0, _ => 0
  | fuel + 1, a => if a = 0 then 0 else bitLenAux fuel (a / 2) + 1

/-- bitLen a is the binary length of a: 0 for 0, and the unique n with
2^(n-1) ≤ a < 2^n otherwise (a itself is always enough fuel). -/
def bitLen (a : ℕ) : ℕ := bitLenAux a a

/-- roundSig rounds a natural number to 53 significant binary digits, ties
to even: the value of the nearest IEEE-754 double, exactly, for numbers
below the double range.  Numbers below 2^53 are unchanged. -/
def roundSig (a : ℕ) : ℕ :=
  if a < 2 ^ 53 then a
  else
    let s := bitLen a - 53
    let q := a / 2 ^ s
    let r := a % 2 ^ s
    let half := 2 ^ (s - 1)
    if r < half then q * 2 ^ s
    else if half < r then (q + 1) * 2 ^ s
    else if q % 2 = 0 then q * 2 ^ s else (q + 1) * 2 ^ s

/-- roundF64 v is the exact integer value of the C double that Python's
`float(v)` produces for an integer v (correctly rounded, ties to even),
on the domain where the conversion does not overflow. -/
def roundF64 (v : ℤ) : ℤ :=
  if 0 ≤ v then ((roundSig v.toNat : ℕ) : ℤ) else -((roundSig (-v).toNat : ℕ) : ℤ)

/-- fmtF0 models `'%.0f' % value` for a Python integer: the value goes
through a C double first, so magnitudes above 2^53 print their 53-bit
rounding rather than their exact digits.  Where the conversion overflows
the double range (|roundF64 v| ≥ 2^1024 — within `Block.__cell` only
reachable for huge negative values, since non-negative values are
compacted below 10000 before rendering) the program raises OverflowError
instead of printing; no theorem below asserts the model's output there. -/
def fmtF0 (v : ℤ) : String := toString (roundF64 v)

/-- cellIntLoop is the `numbers.Integral` loop of `Block.__cell`:
for each suffix in turn, if `value < 10000` return `'%.0f' % value`
(via the double conversion of `fmtF0`) followed by the suffix, else divide
by 1000 and continue.  Under Python 2 the division `value / 1000` on
integers is floor division, which for the positive divisor 1000 coincides
with this toolchain's `Int` division.  When all nine iterations divide
(only possible for `value ≥ 10000 * 1000^8`), control falls through to
the `if value is not None: return str(value)` tail of `__cell`, rendering
the nine-times-divided value exactly (`str` of an int does not go through
a double) with no suffix. -/
def cellIntLoop : ℤ → List String → String
  | v, [] => toString v
  | v, f :: fs => if v < 10000 then fmtF0 v ++ f else cellIntLoop (v / 1000) fs

/-- cellInt runs the integral compaction loop over the full suffix list. -/
def cellInt (v : ℤ) : String := cellIntLoop v fixesAll

/-- divIter k v is v floor-divided by 1000, k times over, tracing the
successive values taken by `value` inside the integral compaction loop. -/
def divIter : ℕ → ℤ → ℤ
  | 0, v => v
  | k + 1, v => divIter k (v / 1000)

/-- divIterQ k q is q true-divided by 1000, k times over, tracing the
successive values taken by `value` inside the fractional compaction loop. -/
def divIterQ : ℕ → ℚ → ℚ
  | 0, q => q
  | k + 1, q => divIterQ k (q / 1000)

/-- rhe rounds a rational to the nearest integer, ties to even: the
rounding applied by C `printf`-style `'%.02f'` formatting, here taken on
the exact value. -/
def rhe (q : ℚ) : ℤ :=
  let f := ⌊q⌋
  if q - f < 1 / 2 then f
  else if 1 / 2 < q - f then f + 1
  else if f % 2 = 0 then f else f + 1

/-- twoDigits renders a natural number below 100 as exactly two digits. -/
def twoDigits (m : ℕ) : String := (if m < 10 then "0" else "") ++ toString m

/-- format2Pos renders a non-negative rational with exactly two decimal
digits, rounding ties to even. -/
def format2Pos (q : ℚ) : String :=
  let n := (rhe (q * 100)).toNat
  toString (n / 100) ++ "." ++ twoDigits (n % 100)

/-- format2 is `'%.02f' % value`: two decimal digits, with the sign emitted
in front (so that small negative values render as `-0.00`, as C `printf`
does). -/
def format2 (q : ℚ) : String :=
  if q < 0 then "-" ++ format2Pos (-q) else format2Pos q

/-- cellFloatLoop is the `numbers.Number` (non-integral) loop of
`Block.__cell`: for each suffix in turn, if `value < 10000` return
`'%.02f' % value` followed by the suffix, else true-divide by 1000
(`float(value) / 1000`) and continue.  The `[]` fallthrough corresponds to
the `str(value)` tail of `__cell` for values that exhaust all nine
iterations (only possible for `value ≥ 10000 * 1000^8`); it is rendered
here with the canonical rational printer and is not reached by any theorem
below. -/
def cellFloatLoop : ℚ → List String → String
  | v, [] => toString v
  | v, f :: fs => if v < 10000 then format2 v ++ f else cellFloatLoop (v / 1000) fs

/-- cellFloat runs the fractional compaction loop over the full suffix
list. -/
def cellFloat (q : ℚ) : String := cellFloatLoop q fixesAll

mutual

/-- cellOf is `Block.__cell` as a function to display text, in the source's
dispatch order: lists join their recursively formatted elements with
`' / '`; integral numbers and other numbers run their compaction loops;
a `ColorStr` passes through unmodified (its text is what the line printer
measures, pads and, off-tty, prints); any other non-`None` value yields its
`str()` form; `None` yields the empty string. -/
def cellOf : Value → String
  | .list vs => String.intercalate " / " (cellOfList vs)
  | .int n => cellInt n
  | .float q => cellFloat q
  | .colorStr s _ => s
  | .str s => s
  | .none => ""

/-- cellOfList formats each element of a Python list cell in order, as the
generator expression inside the `' / '.join` of `Block.__cell` does. -/
def cellOfList : List Value → List String
  | [] => []
  | v :: vs => cellOf v :: cellOfList vs

end

/-- ljust is Python `str.ljust` (and `ColorStr.ljust`, which pads the
underlying text): left-justify by appending spaces up to the width, a
no-op when the text is already at least that wide. -/
def ljust (s : String) (w : ℕ) : String := s.pushn ' ' (w - s.length)

/-- printLineAux is `Block.__printLine` with stdout not a tty: cells are
walked in order in lockstep with the column headers and remembered column
widths; a column whose header no longer fits the remaining width ends the
line (`break`); every cell except the last of the line first grows its
column's remembered width to `max(len(cell) + 2, current)`; the cell is
printed left-justified to the (possibly grown) column width, truncated to
the remaining width, whose full column width is then deducted.  The result
is the printed line and the updated column widths.  A line longer than the
headers raises `IndexError` in Python (excluded by the `assert` in
`Block.print`); the corresponding clauses here end the line. -/
def printLineAux : List Value → List String → List ℕ → ℤ → String × List ℕ
  | [], _, ws, _ => ("", ws)
  | _ :: _, [], ws, _ => ("", ws)
  | _ :: _, _ :: _, [], _ => ("", [])
  | v :: vs, h :: hs, w :: ws, leftWidth =>
    let cell := cellOf v
    if leftWidth < (h.length : ℤ) then ("", w :: ws)
    else
      let w' := if vs.isEmpty then w else max (cell.length + 2) w
      let piece := (ljust cell w').take leftWidth.toNat
      let rest := printLineAux vs hs ws (leftWidth - w')
      (piece ++ rest.1, w' :: rest.2)

/-- Block is the state of class `Block`: the column headers given at
construction, the remembered per-column widths, and the rows last supplied
by `reset`. -/
structure Block where
  columnHeaders : List String
  columnWidths : List ℕ
  lines : List (List Value)

/-- Block.init is `Block.__init__`: the column widths start at the floor 6
for every header; no rows have been supplied yet. -/
def Block.init (headers : List String) : Block :=
  ⟨headers, List.replicate headers.length 6, []⟩

/-- Block.reset is `Block.reset`: replace the row set wholesale, leaving
the remembered column widths untouched. -/
def Block.reset (b : Block) (rows : List (List Value)) : Block :=
  { b with lines := rows }

/-- printRows is the data-row loop of `Block.print`: before each row, stop
if fewer than 2 height units remain (`if height <= 1: break`); otherwise
consume one unit and print the row, threading the column widths through. -/
def printRows (hs : List String) (w : ℕ) : List (List Value) → List ℕ → ℕ → List String × List ℕ
  | [], ws, _ => ([], ws)
  | l :: ls, ws, height =>
    if height ≤ 1 then ([], ws)
    else
      let r := printLineAux l hs ws (w : ℤ)
      let rest := printRows hs w ls r.2 (height - 1)
      (r.1 :: rest.1, rest.2)

/-- Block.print is `Block.print` (precondition `height > 1`, the source's
`assert`): print the header line first against the full width budget,
consume one height unit, then print data rows under `printRows`.  The
result is the list of printed lines (header first) and the final column
widths. -/
def Block.print (b : Block) (height width : ℕ) : List String × List ℕ :=
  let hd := printLineAux (b.columnHeaders.map Value.str) b.columnHeaders b.columnWidths (width : ℤ)
  let rs := printRows b.columnHeaders width b.lines hd.2 (height - 1)
  (hd.1 :: rs.1, rs.2)

/-- refreshAux is the block loop of `Console.refresh`: skip a block with no
rows; stop at the first row-bearing block once at most 2 height units
remain; otherwise allocate `len(block) + 2` lines, capped at the remaining
height, print the block with that height, deduct it, and when at least 2
units still remain print one blank separator line and deduct one more. -/
def refreshAux (w : ℕ) : ℕ → List Block → List String
  | _, [] => []
  | leftHeight, b :: bs =>
    if b.lines.length = 0 then refreshAux w leftHeight bs
    else if leftHeight ≤ 2 then []
    else
      let height := if b.lines.length + 2 < leftHeight then b.lines.length + 2 else leftHeight
      let out := (b.print height w).1
      let leftH' := leftHeight - height
      if 2 ≤ leftH' then out ++ "" :: refreshAux w (leftH' - 1) bs
      else out ++ refreshAux w leftH' bs

/-- refresh is `Console.refresh` restricted to its printed lines: the
`os.system('clear')` call wipes the screen but contributes no lines. -/
def refresh (height w : ℕ) (blocks : List Block) : List String :=
  refreshAux w height blocks

/-- refreshAuxE is `Console.refresh` with write failures made explicit:
each block carries a flag saying whether writing its output raises
`IOError` (modelled as failing on the first write, so the block contributes
no lines).  The `try`/`except IOError: pass` of the source catches the
failure after `block.print` and before the height deduction, so a failing
block deducts nothing and the loop continues with the next block. -/
def refreshAuxE (w : ℕ) : ℕ → List (Block × Bool) → List String
  | _, [] => []
  | leftHeight, (b, broken) :: bs =>
    if b.lines.length = 0 then refreshAuxE w leftHeight bs
    else if leftHeight ≤ 2 then []
    else
      let height := if b.lines.length + 2 < leftHeight then b.lines.length + 2 else leftHeight
      if broken then refreshAuxE w leftHeight bs
      else
        let out := (b.print height w).1
        let leftH' := leftHeight - height
        if 2 ≤ leftH' then out ++ "" :: refreshAuxE w (leftH' - 1) bs
        else out ++ refreshAuxE w leftH' bs

/-- pollLoop is the polling loop of `Console.checkButton` under the model's
clock, with stdin never ready: `while waitTime > 0: time.sleep(0.1);
waitTime -= 0.1`, each sleep advancing the wall clock by exactly `1/10`.
It returns the wall-clock time when the loop exits. -/
def pollLoop (waitTime now : ℚ) : ℚ :=
  if 0 < waitTime then pollLoop (waitTime - 1 / 10) (now + 1 / 10) else now
termination_by (⌈10 * waitTime⌉).toNat
decreasing_by
  rename_i h
  have h1 : 10 * (waitTime - 1 / 10) = 10 * waitTime - 1 := by ring
  have h3 : 0 < ⌈10 * waitTime⌉ := Int.ceil_pos.mpr (by linarith)
  have h4 : ⌈10 * waitTime - 1⌉ = ⌈10 * waitTime⌉ - 1 := Int.ceil_sub_one (10 * waitTime)
  rw [h1, h4]
  omega

/-- checkButton is `Console.checkButton` under the model's clock (state:
the remembered `__lastCheckTime` and the current wall time):  if a previous
call recorded a timestamp, the elapsed wall time since it is subtracted
from the requested wait; the poll loop then runs; finally the current time
— the time at which the polling ended — is recorded as the new
`__lastCheckTime`.  With stdin never ready the returned byte is always
absent, so only the state is modelled. -/
def checkButton (last : Option ℚ) (now : ℚ) (waitTime : ℚ) : Option ℚ × ℚ :=
  let w := match last with
    | Option.none => waitTime
    | Option.some t => waitTime - (now - t)
  let done := pollLoop w now
  (Option.some done, done)

/-- askLoop is the attribute loop of `Console.askForInput`: for each
attribute in order, prompt with `attribute + ': '` and read a line (the
input stream is a function from the read index to the line supplied); a
blank response breaks out of the loop at once.  It returns the prompts
printed and the values collected. -/
def askLoop (inp : ℕ → String) : List String → ℕ → List String × List String
  | [], _ => ([], [])
  | a :: as, i =>
    let v := inp i
    if v = "" then ([a ++ ": "], [])
    else
      let rest := askLoop inp as (i + 1)
      ((a ++ ": ") :: rest.1, v :: rest.2)

/-- askForInput is `Console.askForInput` (inside its cooked-mode scope,
which does not affect the values): run the attribute loop from the start of
the input stream and return the prompts printed and the values collected. -/
def askForInput (attrs : List String) (inp : ℕ → String) : List String × List String :=
  askLoop inp attrs 0

/-- roundSig_of_lt: below 2^53 the double conversion is the identity. -/
theorem roundSig_of_lt (a : ℕ) (h : a < 2 ^ 53) : roundSig a = a := by
  simp only [roundSig, if_pos h]

/-- fmtF0_exact: for integers of magnitude below 2^53 the double
conversion is exact, so `'%.0f'` prints the exact decimal digits. -/
theorem fmtF0_exact (v : ℤ) (h1 : -(2 ^ 53) < v) (h2 : v < 2 ^ 53) :
    fmtF0 v = toString v := by
  rw [fmtF0, roundF64]
  by_cases h : 0 ≤ v
  · rw [if_pos h, roundSig_of_lt _ (by omega), Int.toNat_of_nonneg h]
  · rw [if_neg h, roundSig_of_lt _ (by omega), Int.toNat_of_nonneg (by omega), neg_neg]

/-- divIter_nonneg: floor division by 1000 keeps non-negative values
non-negative through every step of the loop. -/
theorem divIter_nonneg : ∀ (k : ℕ) (v : ℤ), 0 ≤ v → 0 ≤ divIter k v := by
  intro k
  induction k with
  | zero => intro v hv; simpa [divIter] using hv
  | succ k ih =>
    intro v hv
    simpa [divIter] using ih (v / 1000) (by omega)

/-- cellIntLoop_spec characterises the integral compaction loop on any
suffix list it terminates within: some number `k` of divisions happens,
every value before the `k`-th division was at least 10000, the final value
is below 10000, and the output is that final value rendered by `'%.0f'`
followed by the `k`-th suffix. -/
theorem cellIntLoop_spec : ∀ (fs : List String), fs ≠ [] →
    ∀ v : ℤ, v < 10000 * 1000 ^ (fs.length - 1) →
    ∃ k, k < fs.length ∧ (∀ j, j < k → 10000 ≤ divIter j v) ∧
      divIter k v < 10000 ∧
      cellIntLoop v fs = fmtF0 (divIter k v) ++ fs.getD k "" := by
  intro fs
  induction fs with
  | nil => intro h; exact absurd rfl h
  | cons f fs ih =>
    intro _ v hv
    by_cases hsmall : v < 10000
    · refine ⟨0, by simp, ?_, hsmall, ?_⟩
      · intro j hj; omega
      · simp [cellIntLoop, if_pos hsmall, divIter]
    · have hge : 10000 ≤ v := by omega
      rcases List.eq_nil_or_concat fs with hnil | _
      · subst hnil
        simp only [List.length_cons, List.length_nil] at hv
        norm_num at hv
        omega
      case _ hne =>
        have hfs : fs ≠ [] := by
          rcases hne with ⟨l, a, rfl⟩; simp
        have hlen : fs.length - 1 + 1 = fs.length := by
          have : 0 < fs.length := List.length_pos.mpr hfs
          omega
        have hbound : v / 1000 < 10000 * 1000 ^ (fs.length - 1) := by
          have h1 : (10000 : ℤ) * 1000 ^ ((f :: fs).length - 1) =
              10000 * 1000 ^ (fs.length - 1) * 1000 := by
            have h2 : (f :: fs).length - 1 = fs.length - 1 + 1 := by
              simp only [List.length_cons, Nat.add_sub_cancel]
              omega
            rw [h2, pow_succ]
            ring
          rw [h1] at hv
          omega
        obtain ⟨k, hk, hall, hsm, heq⟩ := ih hfs (v / 1000) hbound
        refine ⟨k + 1, by simpa using hk, ?_, ?_, ?_⟩
        · intro j hj
          cases j with
          | zero => simpa [divIter] using hge
          | succ j' => simpa [divIter] using hall j' (by omega)
        · simpa [divIter] using hsm
        · simp only [cellIntLoop, if_neg hsmall]
          simpa [divIter] using heq

/-- cellFloatLoop_spec characterises the fractional compaction loop on any
suffix list it terminates within: some number `k` of true divisions by 1000
happens, every value before the `k`-th division was at least 10000, the
final value is below 10000, and the output is that final value rendered
with exactly two decimal digits followed by the `k`-th suffix. -/
theorem cellFloatLoop_spec : ∀ (fs : List String), fs ≠ [] →
    ∀ q : ℚ, q < 10000 * 1000 ^ (fs.length - 1) →
    ∃ k, k < fs.length ∧ (∀ j, j < k → 10000 ≤ divIterQ j q) ∧
      divIterQ k q < 10000 ∧
      cellFloatLoop q fs = format2 (divIterQ k q) ++ fs.getD k "" := by
  intro fs
  induction fs with
  | nil => intro h; exact absurd rfl h
  | cons f fs ih =>
    intro _ q hq
    by_cases hsmall : q < 10000
    · refine ⟨0, by simp, ?_, hsmall, ?_⟩
      · intro j hj; omega
      · simp [cellFloatLoop, if_pos hsmall, divIterQ]
    · have hge : (10000 : ℚ) ≤ q := by linarith
      rcases List.eq_nil_or_concat fs with hnil | _
      · subst hnil
        simp only [List.length_cons, List.length_nil] at hq
        norm_num at hq
        linarith
      case _ hne =>
        have hfs : fs ≠ [] := by
          rcases hne with ⟨l, a, rfl⟩; simp
        have hlen : fs.length - 1 + 1 = fs.length := by
          have : 0 < fs.length := List.length_pos.mpr hfs
          omega
        have hbound : q / 1000 < 10000 * 1000 ^ (fs.length - 1) := by
          have h1 : (10000 : ℚ) * 1000 ^ ((f :: fs).length - 1) =
              10000 * 1000 ^ (fs.length - 1) * 1000 := by
            have h2 : (f :: fs).length - 1 = fs.length - 1 + 1 := by
              simp only [List.length_cons, Nat.add_sub_cancel]
              omega
            rw [h2, pow_succ]
            ring
          rw [h1] at hq
          rw [div_lt_iff₀ (by norm_num : (0 : ℚ) < 1000)]
          exact hq
        obtain ⟨k, hk, hall, hsm, heq⟩ := ih hfs (q / 1000) hbound
        refine ⟨k + 1, by simpa using hk, ?_, ?_, ?_⟩
        · intro j hj
          cases j with
          | zero => simpa [divIterQ] using hge
          | succ j' => simpa [divIterQ] using hall j' (by omega)
        · simpa [divIterQ] using hsm
        · simp only [cellFloatLoop, if_neg hsmall]
          simpa [divIterQ] using heq

/-- forall2_le_trans chains pointwise `≤` over lists. -/
theorem forall2_le_trans : ∀ {a b c : List ℕ},
    List.Forall₂ (· ≤ ·) a b → List.Forall₂ (· ≤ ·) b c → List.Forall₂ (· ≤ ·) a c := by
  intro a b c hab
  induction hab generalizing c with
  | nil => intro h; cases h; exact List.Forall₂.nil
  | cons hxy _ ih =>
    intro h
    cases h with
    | cons hyz htail => exact List.Forall₂.cons (le_trans hxy hyz) (ih htail)

/-- printLineAux_widths_le: printing one line never shrinks any remembered
column width (each update takes a `max` with the current width, `break`
and the end of the line leave the remaining widths untouched). -/
theorem printLineAux_widths_le : ∀ (line : List Value) (hs : List String) (ws : List ℕ)
    (lw : ℤ), List.Forall₂ (· ≤ ·) ws (printLineAux line hs ws lw).2 := by
  intro line
  induction line with
  | nil => intro hs ws lw; exact List.forall₂_refl ws
  | cons v vs ih =>
    intro hs ws lw
    cases hs with
    | nil => exact List.forall₂_refl ws
    | cons h hs =>
      cases ws with
      | nil => simp [printLineAux]
      | cons w ws =>
        simp only [printLineAux]
        split
        · exact List.forall₂_refl _
        · refine List.Forall₂.cons ?_ (ih hs ws _)
          split
          · exact le_refl w
          · exact le_max_right _ w

/-- printRows_widths_le: printing any run of data rows never shrinks any
remembered column width. -/
theorem printRows_widths_le (hs : List String) (w : ℕ) :
    ∀ (ls : List (List Value)) (ws : List ℕ) (hh : ℕ),
    List.Forall₂ (· ≤ ·) ws (printRows hs w ls ws hh).2 := by
  intro ls
  induction ls with
  | nil => intro ws hh; exact List.forall₂_refl ws
  | cons l ls ih =>
    intro ws hh
    simp only [printRows]
    split
    · exact List.forall₂_refl ws
    · exact forall2_le_trans (printLineAux_widths_le l hs ws (w : ℤ)) (ih _ _)

/-- printRows_length: the data-row loop prints `min (number of rows)
(height - 1)` rows — one per height unit, stopping with one unit spare. -/
theorem printRows_length (hs : List String) (w : ℕ) :
    ∀ (ls : List (List Value)) (ws : List ℕ) (hh : ℕ),
    (printRows hs w ls ws hh).1.length = min ls.length (hh - 1) := by
  intro ls
  induction ls with
  | nil => intro ws hh; simp [printRows]
  | cons l ls ih =>
    intro ws hh
    simp only [printRows]
    split
    · simp only [List.length_nil, List.length_cons]
      omega
    · simp only [List.length_cons, ih]
      omega

/-- pollLoop_nonpos: with no wait budget left the poll loop exits at once. -/
theorem pollLoop_nonpos (w now : ℚ) (h : w ≤ 0) : pollLoop w now = now := by
  rw [pollLoop]
  simp only [if_neg (by linarith : ¬ 0 < w)]

/-- pollLoop_natCast: a wait budget of `n/10` seconds costs exactly `n`
sleeps of `1/10` second each. -/
theorem pollLoop_natCast : ∀ (n : ℕ) (now : ℚ), pollLoop ((n : ℚ) / 10) now = now + (n : ℚ) / 10 := by
  intro n
  induction n with
  | zero =>
    intro now
    rw [pollLoop]
    norm_num
  | succ k ih =>
    intro now
    rw [pollLoop]
    have hpos : (0 : ℚ) < ((k : ℚ) + 1) / 10 := by positivity
    have e1 : ((k : ℚ) + 1) / 10 - 1 / 10 = (k : ℚ) / 10 := by ring
    simp only [Nat.cast_succ]
    rw [if_pos hpos, e1, ih]
    ring

/-- pollLoop_one: a one-second wait budget advances the clock by exactly
one second (ten sleeps of a tenth each). -/
theorem pollLoop_one (now : ℚ) : pollLoop 1 now = now + 1 := by
  have h := pollLoop_natCast 10 now
  norm_num at h
  exact h

/-- askLoop_values: the values collected are exactly the responses read, in
order, up to (and excluding) the first blank, never more than one response
per attribute. -/
theorem askLoop_values (inp : ℕ → String) :
    ∀ (as : List String) (i : ℕ),
    (askLoop inp as i).2 = List.takeWhile (fun s => s ≠ "") ((List.range' i as.length).map inp) := by
  intro as
  induction as with
  | nil => intro i; simp [askLoop]
  | cons a as ih =>
    intro i
    simp only [askLoop, List.length_cons, List.range'_succ, List.map_cons, List.takeWhile_cons]
    by_cases hv : inp i = ""
    · simp [hv]
    · simp only [if_neg hv, hv, decide_not]
      simp [ih]

/-- askLoop_prompts: one prompt of the form `attribute + ': '` is printed
per attribute visited, in order: one per collected value, plus one for the
attribute whose blank response stopped the loop, when there is one. -/
theorem askLoop_prompts (inp : ℕ → String) :
    ∀ (as : List String) (i : ℕ),
    (askLoop inp as i).1 = (as.map (fun a => a ++ ": ")).take ((askLoop inp as i).2.length + 1) := by
  intro as
  induction as with
  | nil => intro i; simp [askLoop]
  | cons a as ih =>
    intro i
    simp only [askLoop]
    by_cases hv : inp i = ""
    · simp [hv]
    · simp only [if_neg hv, List.map_cons, List.length_cons, List.take_succ_cons]
      rw [ih]

/-- refreshAuxE_map_false: with no write failures the failure-aware refresh
loop agrees with the plain one. -/
theorem refreshAuxE_map_false (w : ℕ) :
    ∀ (bs : List Block) (H : ℕ),
    refreshAuxE w H (bs.map fun b => (b, false)) = refreshAux w H bs := by
  intro bs
  induction bs with
  | nil => intro H; simp [refreshAuxE, refreshAux]
  | cons b bs ih =>
    intro H
    simp only [List.map_cons, refreshAuxE, refreshAux, Bool.false_eq_true, if_false]
    split
    · exact ih H
    · split
      · rfl
      · split <;> split <;> simp [ih]

/-- tenRowBlock is a one-column block holding ten rows of the integer 1. -/
def tenRowBlock : Block := (Block.init ["A"]).reset (List.replicate 10 [Value.int 1])

/-- twoRowBlock is a one-column block holding two rows of the integer 1. -/
def twoRowBlock : Block := (Block.init ["A"]).reset (List.replicate 2 [Value.int 1])

/-- emptyBlock is a one-column block holding no rows. -/
def emptyBlock : Block := Block.init ["A"]

set_option maxRecDepth 10000 in
/-- C1 (counterexample): `print(height=5)` on a block with 10 rows prints 4
lines in total — 1 header plus 3 data rows — not the 1 header plus 4 data
rows the claim states. -/
theorem print_height5_not_four_data_rows :
    (tenRowBlock.print 5 80).1.length = 4 ∧ (tenRowBlock.print 5 80).1.length ≠ 1 + 4 := by
  decide

/-- C1 (amended): with precondition `height > 1`, `Block.print` emits the
header line first and then exactly `min (row count) (height - 2)` data
rows, stopping as soon as the row set is exhausted or fewer than 2 height
units remain; in particular `print(height=5)` on a block with 10 rows
renders 1 header line plus 3 data rows, and on a block with 2 rows renders
1 header line plus 2 data rows. -/
theorem print_height_budget :
    (∀ (b : Block) (h w : ℕ), 1 < h →
      (b.print h w).1.length = 1 + min b.lines.length (h - 2) ∧
      (b.print h w).1.head? =
        some (printLineAux (b.columnHeaders.map Value.str) b.columnHeaders b.columnWidths (w : ℤ)).1) ∧
    (tenRowBlock.print 5 80).1.length = 1 + 3 ∧
    (twoRowBlock.print 5 80).1.length = 1 + 2 := by
  refine ⟨?_, ?_, ?_⟩
  · intro b h w _
    constructor
    · simp only [Block.print, List.length_cons, printRows_length]
      omega
    · simp [Block.print]
  · set_option maxRecDepth 10000 in decide
  · set_option maxRecDepth 10000 in decide

/-- print_height_budget_witness instantiates the amended C1 theorem on the
ten-row block at height 5 and width 80. -/
theorem print_height_budget_witness :
    1 < 5 ∧ (tenRowBlock.print 5 80).1.length = 1 + min tenRowBlock.lines.length (5 - 2) :=
  ⟨by decide, (print_height_budget.1 tenRowBlock 5 80 (by decide)).1⟩

/-- C2: every integer 0 ≤ n < 10000 is formatted as its exact decimal
digits with no suffix, and 12345, 999 and 15000000 format as "12k", "999"
and "15M". -/
theorem cell_int_small_exact :
    (∀ n : ℤ, 0 ≤ n → n < 10000 → cellOf (.int n) = toString n) ∧
    cellOf (.int 12345) = "12k" ∧
    cellOf (.int 999) = "999" ∧
    cellOf (.int 15000000) = "15M" := by
  refine ⟨?_, by decide, by decide, by decide⟩
  intro n h0 hn
  have hf : fmtF0 n = toString n := fmtF0_exact n (by omega) (by omega)
  simp [cellOf, cellInt, fixesAll, cellIntLoop, if_pos hn, hf]

/-- cell_int_small_exact_witness instantiates the C2 theorem at n = 7. -/
theorem cell_int_small_exact_witness :
    0 ≤ (7 : ℤ) ∧ (7 : ℤ) < 10000 ∧ cellOf (.int 7) = toString (7 : ℤ) :=
  ⟨by decide, by decide, cell_int_small_exact.1 7 (by decide) (by decide)⟩

/-- C3: column widths start at the floor 6 for every header, `reset` leaves
them untouched, and `print` (one render call: the header line plus the data
rows) only ever grows each remembered column width. -/
theorem column_widths_monotone :
    (∀ hs : List String, (Block.init hs).columnWidths = List.replicate hs.length 6) ∧
    (∀ (b : Block) (rows : List (List Value)), (b.reset rows).columnWidths = b.columnWidths) ∧
    (∀ (b : Block) (h w : ℕ), List.Forall₂ (· ≤ ·) b.columnWidths (b.print h w).2) := by
  refine ⟨fun _ => rfl, fun _ _ => rfl, ?_⟩
  intro b h w
  simp only [Block.print]
  exact forall2_le_trans (printLineAux_widths_le _ _ _ _) (printRows_widths_le _ _ _ _ _)

/-- C5: on the domain where the rendering is numerically exact (the value
above -2^53, so that `'%.0f'` of the final value prints exact digits) and
the nine-entry suffix list suffices (the value below 10000·1000⁸), the
integral compaction loop floor-divides by 1000 while the value is at least
10000, advancing one suffix per division through
`('', k, M, G, T, P, E, Z, Y)`, and renders the final value's decimal
digits with zero decimal places followed by the suffix reached.
Non-negative values reach the renderer compacted below 10000, so the left
bound only excludes huge negatives, whose `'%.0f'` output is
float-rounded. -/
theorem cell_int_compaction :
    ∀ v : ℤ, -(2 ^ 53) < v → v < 10000 * 1000 ^ 8 →
    ∃ k, k ≤ 8 ∧ (∀ j, j < k → 10000 ≤ divIter j v) ∧ divIter k v < 10000 ∧
      cellOf (.int v) = toString (divIter k v) ++ fixesAll.getD k "" := by
  intro v hlow hv
  obtain ⟨k, hk, h1, h2, h3⟩ :=
    cellIntLoop_spec fixesAll (by decide) v (by simpa [fixesAll] using hv)
  have hk8 : k ≤ 8 := by simp [fixesAll] at hk; omega
  have hterm : -(2 ^ 53) < divIter k v := by
    cases k with
    | zero => simpa [divIter] using hlow
    | succ k' =>
      have hv0 : (10000 : ℤ) ≤ v := h1 0 (by omega)
      have := divIter_nonneg (k' + 1) v (by omega)
      omega
  have hf : fmtF0 (divIter k v) = toString (divIter k v) :=
    fmtF0_exact _ hterm (by omega)
  refine ⟨k, hk8, h1, h2, ?_⟩
  rw [← hf]
  simpa [cellOf, cellInt] using h3

/-- cell_int_compaction_witness instantiates the C5 theorem at v = 12345. -/
theorem cell_int_compaction_witness :
    -((2 : ℤ) ^ 53) < 12345 ∧ (12345 : ℤ) < 10000 * 1000 ^ 8 ∧
    ∃ k, k ≤ 8 ∧ (∀ j, j < k → 10000 ≤ divIter j 12345) ∧ divIter k 12345 < 10000 ∧
      cellOf (.int 12345) = toString (divIter k 12345) ++ fixesAll.getD k "" :=
  ⟨by norm_num, by norm_num, cell_int_compaction 12345 (by norm_num) (by norm_num)⟩

set_option maxRecDepth 10000 in
/-- C10 (counterexample): at n = -(2^53 + 1) the program does not print the
exact decimal representation: `'%.0f'` converts through a C double, whose
nearest value to -(2^53 + 1) is -2^53, so it prints "-9007199254740992"
while the exact digits are "-9007199254740993". -/
theorem cell_int_negative_rounded :
    cellOf (.int (-(2 ^ 53 + 1))) = "-9007199254740992" ∧
    toString (-(2 ^ 53 + 1) : ℤ) = "-9007199254740993" ∧
    cellOf (.int (-(2 ^ 53 + 1))) ≠ toString (-(2 ^ 53 + 1) : ℤ) := by
  decide

/-- C10 (amended): every negative integer of magnitude below 2^53 — the
domain where the C-double conversion inside `'%.0f'` is exact — formats as
its exact decimal representation with no magnitude suffix: the loop's
`value < 10000` test succeeds on the first iteration, so the value is
never divided or suffixed.  (Larger magnitudes print their 53-bit-rounded
digits, and magnitudes beyond the double range make the conversion raise
OverflowError.) -/
theorem cell_int_negative_exact :
    ∀ n : ℤ, n < 0 → -(2 ^ 53) < n → cellOf (.int n) = toString n := by
  intro n hn hlow
  have hf : fmtF0 n = toString n := fmtF0_exact n hlow (by omega)
  simp [cellOf, cellInt, fixesAll, cellIntLoop, if_pos (show n < 10000 by omega), hf]

/-- cell_int_negative_exact_witness instantiates the amended C10 theorem at
n = -5. -/
theorem cell_int_negative_exact_witness :
    (-5 : ℤ) < 0 ∧ -((2 : ℤ) ^ 53) < -5 ∧ cellOf (.int (-5)) = toString (-5 : ℤ) :=
  ⟨by decide, by decide, cell_int_negative_exact (-5) (by decide) (by decide)⟩

/-- C4: `Console.refresh` composes blocks top-to-bottom within the height
budget: no blocks means no output; a block with zero rows is skipped
entirely (its header is never printed alone); the first row-bearing block
met with at most 2 height units left stops processing; otherwise the block
is allocated `min (row count + 2) (remaining height)` lines which are
deducted, and when at least 2 lines remain afterwards one blank separator
line is emitted and 1 more deducted. -/
theorem refresh_composition :
    (∀ H w : ℕ, refresh H w [] = []) ∧
    (∀ (H w : ℕ) (b : Block) (bs : List Block), b.lines.length = 0 →
      refresh H w (b :: bs) = refresh H w bs) ∧
    (∀ (H w : ℕ) (b : Block) (bs : List Block), b.lines.length ≠ 0 → H ≤ 2 →
      refresh H w (b :: bs) = []) ∧
    (∀ (H w : ℕ) (b : Block) (bs : List Block), b.lines.length ≠ 0 → 2 < H →
      refresh H w (b :: bs) =
        (b.print (min (b.lines.length + 2) H) w).1 ++
          (if 2 ≤ H - min (b.lines.length + 2) H
           then "" :: refresh (H - min (b.lines.length + 2) H - 1) w bs
           else refresh (H - min (b.lines.length + 2) H) w bs)) := by
  refine ⟨fun _ _ => rfl, ?_, ?_, ?_⟩
  · intro H w b bs h0
    simp [refresh, refreshAux, h0]
  · intro H w b bs hne hle
    simp [refresh, refreshAux, hne, hle]
  · intro H w b bs hne hH
    have hmin : (if b.lines.length + 2 < H then b.lines.length + 2 else H) =
        min (b.lines.length + 2) H := by
      split <;> omega
    simp only [refresh, refreshAux, hne, if_neg (show ¬ H ≤ 2 by omega), if_false, hmin]
    split <;> rfl

/-- refresh_composition_witness instantiates the C4 theorem: skipping the
empty block, stopping at height 2 before the two-row block, and the
allocation equation for the two-row block at height 10 and width 5. -/
theorem refresh_composition_witness :
    (emptyBlock.lines.length = 0 ∧ refresh 10 5 [emptyBlock] = refresh 10 5 []) ∧
    (twoRowBlock.lines.length ≠ 0 ∧ (2 : ℕ) ≤ 2 ∧ refresh 2 5 [twoRowBlock] = []) ∧
    (twoRowBlock.lines.length ≠ 0 ∧ 2 < 10 ∧
      refresh 10 5 [twoRowBlock] =
        (twoRowBlock.print (min (twoRowBlock.lines.length + 2) 10) 5).1 ++
          (if 2 ≤ 10 - min (twoRowBlock.lines.length + 2) 10
           then "" :: refresh (10 - min (twoRowBlock.lines.length + 2) 10 - 1) 5 []
           else refresh (10 - min (twoRowBlock.lines.length + 2) 10) 5 [])) :=
  ⟨⟨by decide, refresh_composition.2.1 10 5 emptyBlock [] (by decide)⟩,
   ⟨by decide, by decide, refresh_composition.2.2.1 2 5 twoRowBlock [] (by decide) (by decide)⟩,
   ⟨by decide, by decide, refresh_composition.2.2.2 10 5 twoRowBlock [] (by decide) (by decide)⟩⟩

/-- C9: a write failure while rendering one block aborts only that block's
output: the loop continues with the next block at an unchanged height
budget; and with no failures the failure-aware loop is the plain refresh. -/
theorem refresh_write_failure_isolated :
    (∀ (H w : ℕ) (b : Block) (bs : List (Block × Bool)), b.lines.length ≠ 0 → 2 < H →
      refreshAuxE w H ((b, true) :: bs) = refreshAuxE w H bs) ∧
    (∀ (H w : ℕ) (bs : List Block),
      refreshAuxE w H (bs.map fun b => (b, false)) = refreshAux w H bs) := by
  constructor
  · intro H w b bs hne hH
    simp [refreshAuxE, hne, show ¬ H ≤ 2 by omega]
  · intro H w bs
    exact refreshAuxE_map_false w bs H

/-- refresh_write_failure_isolated_witness instantiates the C9 theorem: the
broken two-row block is passed over and the refresh continues with the
block behind it. -/
theorem refresh_write_failure_isolated_witness :
    twoRowBlock.lines.length ≠ 0 ∧ 2 < 10 ∧
    refreshAuxE 5 10 ((twoRowBlock, true) :: [(twoRowBlock, false)]) =
      refreshAuxE 5 10 [(twoRowBlock, false)] :=
  ⟨by decide, by decide,
   refresh_write_failure_isolated.1 10 5 twoRowBlock [(twoRowBlock, false)] (by decide) (by decide)⟩

/-- C7 (counterexample): two back-to-back `checkButton(1.0)` calls starting
from a fresh console at time 0 end at time 2 — a cumulative wait of ~2.0
seconds, not the ~1.0 second the claim states. -/
theorem checkButton_back_to_back_two_seconds :
    (checkButton (checkButton Option.none 0 1).1 (checkButton Option.none 0 1).2 1).2 = 2 ∧
    (2 : ℚ) ≠ 1 := by
  constructor
  · have h1 : pollLoop 1 0 = 1 := by simpa using pollLoop_one 0
    have h2 : pollLoop 1 1 = 2 := by
      have := pollLoop_one 1
      norm_num at this
      exact this
    simp [checkButton, h1, h2]
  · norm_num

/-- C7 (amended): `checkButton` records the wall-clock time at the end of
its own polling loop as the timestamp for the next invocation, and a
subsequent call's effective wait time equals the requested waitTime minus
the wall time elapsed since that recorded timestamp; consequently two
back-to-back `checkButton(1.0)` calls with negligible processing between
them wait a cumulative ~2.0 seconds — the elapsed time subtracted by the
second call is only the processing gap since the first call's wait ended. -/
theorem checkButton_records_end_of_poll :
    (∀ t now w' : ℚ,
      checkButton (Option.some t) now w' =
        (Option.some (pollLoop (w' - (now - t)) now), pollLoop (w' - (now - t)) now)) ∧
    (∀ (l : Option ℚ) (now w' : ℚ),
      (checkButton l now w').1 = Option.some ((checkButton l now w').2)) ∧
    (∀ t0 : ℚ, (checkButton Option.none t0 1).2 = t0 + 1 ∧
      (checkButton (checkButton Option.none t0 1).1 (checkButton Option.none t0 1).2 1).2 =
        t0 + 2) := by
  refine ⟨fun _ _ _ => rfl, ?_, ?_⟩
  · intro l now w'
    cases l <;> rfl
  · intro t0
    have h1 : pollLoop 1 t0 = t0 + 1 := pollLoop_one t0
    have h2 : pollLoop 1 (t0 + 1) = t0 + 2 := by
      have := pollLoop_one (t0 + 1)
      linarith
    refine ⟨by simpa [checkButton] using h1, ?_⟩
    simp [checkButton, h1, h2]

/-- C8: `askForInput` prompts for each attribute in order (one prompt per
collected value, plus one for the attribute whose blank response stopped
the loop) and returns exactly the responses read before the first blank
one, the blank excluded; with responses "Alice" then blank it returns
["Alice"], and with a blank first response it returns []. -/
theorem askForInput_stops_at_blank :
    (∀ (attrs : List String) (inp : ℕ → String),
      (askForInput attrs inp).2 =
        List.takeWhile (fun s => s ≠ "") ((List.range attrs.length).map inp) ∧
      (askForInput attrs inp).1 =
        (attrs.map fun a => a ++ ": ").take ((askForInput attrs inp).2.length + 1)) ∧
    (askForInput ["name", "email"] fun i => if i = 0 then "Alice" else "").2 = ["Alice"] ∧
    (askForInput ["name", "email"] fun _ => "").2 = [] := by
  refine ⟨?_, by decide, by decide⟩
  intro attrs inp
  constructor
  · rw [askForInput, askLoop_values, List.range_eq_range']
  · exact askLoop_prompts inp attrs 0

/-- C6: the fractional branch runs the same threshold-10000, divide-by-1000
compaction loop over the same suffix list as the whole-number branch (with
true division in place of floor division), but renders the final magnitude
with exactly two decimal digits followed by the reached suffix: for every
value on which the nine-entry suffix list suffices, some number k of
divisions happens, every value before the k-th division was at least
10000, the final value is below 10000 and is rendered by `'%.02f'` plus
the k-th suffix; in particular 12345.6 formats as "12.35k". -/
theorem cell_float_two_decimals :
    cellOf (.float (123456 / 10)) = "12.35k" ∧
    (∀ q : ℚ, q < 10000 * 1000 ^ 8 →
      ∃ k, k ≤ 8 ∧ (∀ j, j < k → 10000 ≤ divIterQ j q) ∧ divIterQ k q < 10000 ∧
        cellOf (.float q) = format2 (divIterQ k q) ++ fixesAll.getD k "") := by
  constructor
  · have hx1 : ¬ ((123456 : ℚ) / 10 < 10000) := by norm_num
    have hx2 : (123456 : ℚ) / 10 / 1000 < 10000 := by norm_num
    have hx3 : ¬ ((123456 : ℚ) / 10 / 1000 < 0) := by norm_num
    have hy : (123456 : ℚ) / 10 / 1000 * 100 = 30864 / 25 := by norm_num
    have hfl : ⌊(30864 / 25 : ℚ)⌋ = 1234 := by
      rw [Int.floor_eq_iff]
      constructor <;> norm_num
    have hrhe : rhe (30864 / 25) = 1235 := by
      rw [rhe]
      simp only [hfl]
      norm_num
    have hfmt : format2 ((123456 : ℚ) / 10 / 1000) = "12.35" := by
      rw [format2, if_neg hx3, format2Pos, hy, hrhe]
      decide
    simp only [cellOf, cellFloat, fixesAll, cellFloatLoop, if_neg hx1, if_pos hx2, hfmt]
    decide
  · intro q hq
    obtain ⟨k, hk, h1, h2, h3⟩ :=
      cellFloatLoop_spec fixesAll (by decide) q (by simpa [fixesAll] using hq)
    have hk8 : k ≤ 8 := by simp [fixesAll] at hk; omega
    exact ⟨k, hk8, h1, h2, by simpa [cellOf, cellFloat] using h3⟩

/-- cell_float_two_decimals_witness instantiates the C6 theorem's loop
characterisation at q = 12345.6, the value of the claim's example. -/
theorem cell_float_two_decimals_witness :
    (123456 : ℚ) / 10 < 10000 * 1000 ^ 8 ∧
    ∃ k, k ≤ 8 ∧ (∀ j, j < k → 10000 ≤ divIterQ j ((123456 : ℚ) / 10)) ∧
      divIterQ k ((123456 : ℚ) / 10) < 10000 ∧
      cellOf (.float ((123456 : ℚ) / 10)) =
        format2 (divIterQ k ((123456 : ℚ) / 10)) ++ fixesAll.getD k "" :=
  ⟨by norm_num, cell_float_two_decimals.2 ((123456 : ℚ) / 10) (by norm_num)⟩

end Motop

